import Mathlib

/-!
Verification development for the cursive CSV toolkit (Go).

A Go string is modelled as its byte sequence, `List Nat` (each entry a byte
value 0..255; the helper `str` builds such a sequence from an ASCII Lean
string literal for concrete examples).  A decoded CSV record is a list of
field strings.  Fallible Go code is modelled with `Option`/`Except`, and a
Go runtime panic is modelled as an explicit `crash` outcome.
-/

namespace Cursive

/-- A Go string: its sequence of bytes. -/
abbrev GoStr := List Nat

/-- A decoded CSV record: an ordered sequence of field strings. -/
abbrev GoRec := List GoStr

/-- Convenience for writing ASCII string constants as byte sequences (for
ASCII characters the code point equals the byte value). -/
def str (s : String) : GoStr := s.data.map Char.toNat

/-- The byte-wise string comparison from `cmp` in csvsort/main.go (the code
after the `strcmp` label): scan the shared prefix, the first differing byte
decides with the value `int(a[i]) - int(b[i])`; if the shared prefix is
fully equal the result is `len(a) - len(b)`.  The Go loop is expressed as
structural recursion over the two byte lists. -/
def strcmp : GoStr → GoStr → Int
  | [], [] => 0
  | [], _ :: bs => -1 - (bs.length : Int)
  | _ :: as, [] => 1 + (as.length : Int)
  | a :: as, b :: bs => if a = b then strcmp as bs else (a : Int) - (b : Int)

/-- The value space of Go float64 as far as comparison in `cmp` is concerned.
A finite value is kept as the exact fraction `num / den` with `den` a
positive power of ten as produced by the decimal parser (float64 rounding
and overflow/underflow range errors of `strconv.ParseFloat` are not
modelled; no claim depends on them). -/
inductive GoFloat where
  | nan
  | posInf
  | negInf
  | finite (num : Int) (den : Nat)
deriving DecidableEq

/-- Go `f1 < f2` on float64 values: NaN compares false against everything;
finite fractions (with positive denominators) compare by
cross-multiplication, i.e. in their numeric order. -/
def fLt : GoFloat → GoFloat → Bool
  | .nan, _ => false
  | _, .nan => false
  | .negInf, .negInf => false
  | .negInf, _ => true
  | _, .negInf => false
  | .posInf, _ => false
  | .finite _ _, .posInf => true
  | .finite n1 d1, .finite n2 d2 => decide (n1 * (d2 : Int) < n2 * (d1 : Int))

/-- Byte is an ASCII decimal digit. -/
def isDigit (c : Nat) : Bool := decide (48 ≤ c) && decide (c ≤ 57)

/-- Split off the longest leading run of ASCII digits. -/
def readDigits : GoStr → List Nat × GoStr
  | [] => ([], [])
  | c :: rest =>
    if isDigit c then
      let p := readDigits rest
      (c :: p.1, p.2)
    else ([], c :: rest)

/-- Value of a digit-byte run as a natural number. -/
def digitsVal (ds : List Nat) : Nat := ds.foldl (fun acc c => acc * 10 + (c - 48)) 0

/-- Lower-case an ASCII byte. -/
def lowerByte (c : Nat) : Nat := if 65 ≤ c ∧ c ≤ 90 then c + 32 else c

/-- Case-insensitive comparison of a byte string against an ASCII constant. -/
def lowerEq (s t : GoStr) : Bool := decide (s.map lowerByte = t)

/-- Model of `strconv.ParseFloat(s, 64)` as used by `cmp`: optional sign;
case-insensitive special values `inf`/`infinity` (signed) and `nan`
(unsigned only, per Go's `special`); otherwise a decimal mantissa (digits
with at most one dot, at least one digit) and an optional `e`/`E` exponent
with optional sign.  The whole string must be consumed.  Hexadecimal floats
and digit-separator underscores are not modelled (no claim involves them),
and finite values are kept as exact rationals. -/
def parseFloat (s : GoStr) : Option GoFloat :=
  if s = [] then none
  else
    let signRest : Bool × GoStr :=
      match s with
      | 43 :: r => (false, r)
      | 45 :: r => (true, r)
      | r => (false, r)
    let neg := signRest.1
    let rest := signRest.2
    if lowerEq rest (str "inf") || lowerEq rest (str "infinity") then
      some (if neg then .negInf else .posInf)
    else if lowerEq s (str "nan") then some .nan
    else
      let p1 := readDigits rest
      let ip := p1.1
      let p2 : List Nat × GoStr :=
        match p1.2 with
        | 46 :: r => readDigits r
        | r => ([], r)
      let fp := p2.1
      if ip = [] ∧ fp = [] then none
      else
        let num0 : Nat := digitsVal ip * 10 ^ fp.length + digitsVal fp
        let den0 : Nat := 10 ^ fp.length
        let num1 : Int := if neg then -(num0 : Int) else (num0 : Int)
        match p2.2 with
        | [] => some (.finite num1 den0)
        | c :: r3 =>
          if c = 101 ∨ c = 69 then
            let ep : Bool × GoStr :=
              match r3 with
              | 43 :: r => (false, r)
              | 45 :: r => (true, r)
              | r => (false, r)
            let p3 := readDigits ep.2
            if p3.1 = [] ∨ p3.2 ≠ [] then none
            else if ep.1 then some (.finite num1 (den0 * 10 ^ digitsVal p3.1))
            else some (.finite (num1 * (10 : Int) ^ digitsVal p3.1) den0)
          else none

/-- ASCII whitespace byte, the fast path of `strings.TrimSpace` (non-ASCII
Unicode space characters are not modelled; no claim involves them). -/
def isGoSpace (c : Nat) : Bool :=
  decide (c = 32) || decide (c = 9) || decide (c = 10) || decide (c = 11) ||
    decide (c = 12) || decide (c = 13)

/-- Model of `strings.TrimSpace`. -/
def trimSpace (s : GoStr) : GoStr :=
  ((s.dropWhile isGoSpace).reverse.dropWhile isGoSpace).reverse

/-- The field comparator `cmp(a, b string, flag byte) int` from
csvsort/main.go.  For the numeric flag `'n'` (byte 110): parse both sides;
both fail → fall through to the `strcmp` label; exactly one fails → the
failing side sorts first; both parse → compare the float values.  Any other
flag falls through to the byte-wise string comparison. -/
def cmp (a b : GoStr) (flag : Nat) : Int :=
  if flag = 110 then
    match parseFloat a, parseFloat b with
    | none, none => strcmp a b
    | none, some _ => -1
    | some _, none => 1
    | some f1, some f2 => if fLt f1 f2 then -1 else if fLt f2 f1 then 1 else 0
  else strcmp a b

/-- The `cmp` variant from unnamed/part_000 (an alternate revision of the
sort tool), identical except that each operand is passed through
`strings.TrimSpace` before `strconv.ParseFloat`; the string fallback still
compares the untrimmed operands. -/
def cmpWs (a b : GoStr) (flag : Nat) : Int :=
  if flag = 110 then
    match parseFloat (trimSpace a), parseFloat (trimSpace b) with
    | none, none => strcmp a b
    | none, some _ => -1
    | some _, none => 1
    | some f1, some f2 => if fLt f1 f2 then -1 else if fLt f2 f1 then 1 else 0
  else strcmp a b

/-- Model of `strconv.ParseInt(s, 10, 32)`: optional sign, a non-empty run
of decimal digits and nothing else, with the int32 range check (out-of-range
values are an error, hence `none`). -/
def parseGoInt32 (s : GoStr) : Option Int :=
  let sp : Bool × GoStr :=
    match s with
    | 43 :: r => (false, r)
    | 45 :: r => (true, r)
    | r => (false, r)
  if sp.2 = [] ∨ ¬ (sp.2.all isDigit = true) then none
  else
    let v : Int := if sp.1 then -(digitsVal sp.2 : Int) else (digitsVal sp.2 : Int)
    if v < -(2 ^ 31) ∨ (2 ^ 31) ≤ v then none else some v

/-- `FieldRange` from common/range.go: 0-based inclusive `Start`, 0-based
inclusive `End` with `-1` as the open (single-field) sentinel, and a
one-byte type-hint `Flag` (0 = none). -/
structure FieldRange where
  Start : Int
  End : Int
  Flag : Nat
deriving DecidableEq

/-- `strings.SplitN(s, sep, 2)` on a single byte separator: the part before
the first separator, and the remainder after it when the separator occurs. -/
def splitOnceAt (sep : Nat) : GoStr → GoStr × Option GoStr
  | [] => ([], none)
  | c :: rest =>
    if c = sep then ([], some rest)
    else
      let p := splitOnceAt sep rest
      (c :: p.1, p.2)

/-- `parseFieldRange` from common/range.go: a trailing lowercase ASCII
letter is stripped and remembered as the type-hint flag; the remainder is
split at the first `-`.  A single number `N` yields `{N-1, -1, flag}`; a
pair `N-M` yields `{N-1, M-1}` — the source builds that literal without the
`Flag` field, so the flag is dropped (Go zero value 0) on this path. -/
def parseFieldRange (s : GoStr) : Option FieldRange :=
  let fl : Nat × GoStr :=
    match s.getLast? with
    | some last => if 97 ≤ last ∧ last ≤ 122 then (last, s.dropLast) else (0, s)
    | none => (0, s)
  let p := splitOnceAt 45 fl.2
  match parseGoInt32 p.1 with
  | none => none
  | some i =>
    match p.2 with
    | none => some ⟨i - 1, -1, fl.1⟩
    | some second =>
      match parseGoInt32 second with
      | none => none
      | some i2 => some ⟨i - 1, i2 - 1, 0⟩

/-- Outcome of the cut tool's per-record transform: a produced record, the
`fmt.Errorf("%d: no such field in record of length %d", ...)` failure
carrying its two format arguments, or a Go runtime panic (out-of-range
slice index). -/
inductive CutResult where
  | ok (out : List GoStr)
  | err (idx : Int) (len : Nat)
  | crash
deriving DecidableEq

/-- Go slice indexing `r[i]`: `none` models the runtime panic on a negative
or too-large index. -/
def goIndex (r : List α) (i : Int) : Option α :=
  if h : 0 ≤ i ∧ i.toNat < r.length then some (r.get ⟨i.toNat, h.2⟩) else none

/-- The loop `for i := r.Start; i <= r.End; i++ { buffer = append(buffer,
record[i]) }`: collect the inclusive span, `none` when an access panics. -/
def spanFields (record : List GoStr) (i j : Int) : Option (List GoStr) :=
  if h : i ≤ j then
    match goIndex record i with
    | none => none
    | some x =>
      match spanFields record (i + 1) j with
      | none => none
      | some xs => some (x :: xs)
  else some []
termination_by (j + 1 - i).toNat
decreasing_by omega

/-- The range loop of `processRecord` in csvcut/main.go: only `r.Start` is
checked against the record length (`r.Start >= len(record)` errors with the
0-based start and the length); the single-field and closed-span accesses
themselves can panic. -/
def cutRanges (record : List GoStr) : List FieldRange → List GoStr → CutResult
  | [], buffer => .ok buffer
  | r :: rs, buffer =>
    if (record.length : Int) ≤ r.Start then .err r.Start record.length
    else if r.End < 0 then
      match goIndex record r.Start with
      | none => .crash
      | some x => cutRanges record rs (buffer ++ [x])
    else
      match spanFields record r.Start r.End with
      | none => .crash
      | some xs => cutRanges record rs (buffer ++ xs)

/-- `processRecord` from csvcut/main.go: a nil range list copies the whole
record after the buffer prefix; otherwise the ranges are projected in
order.  The unused `isHeader`/`line` parameters of the Go signature are
kept. -/
def cutProcessRecord (fieldRanges : Option (List FieldRange)) (record buffer : List GoStr)
    (_isHeader : Bool) (_line : Int) : CutResult :=
  match fieldRanges with
  | none => .ok (buffer ++ record)
  | some rs => cutRanges record rs buffer

/-- The two format arguments of the shared field-index error message
`"%d: no such field in record of length %d"`. -/
structure FieldIndexErr where
  idx : Int
  len : Nat
deriving DecidableEq

/-- One `-rN=`/`-wN=` rule of csvgrep: 0-based field index (1 was
subtracted at flag-parse time), the compiled regular expression abstracted
as its `MatchString` predicate and its `ReplaceAllString(·, r.with)`
rewriting function (the RE2 engine is an external collaborator), and the
replace flag. -/
structure GrepRule where
  field : Int
  rmatch : GoStr → Bool
  isReplace : Bool
  rreplace : GoStr → GoStr

/-- The rule loop of `processRecord` in csvgrep/main.go, acting on the
record copy appended after the buffer prefix `pre`: out-of-range field
index errors with the 0-based index and the record length; a rule whose
match result equals the invert flag (with filtering on) drops the record
(`ok none`); a replace rule rewrites the field in place. -/
def grepLoop (filterMode invert : Bool) (pre : List GoStr) :
    List GrepRule → List GoStr → Except FieldIndexErr (Option (List GoStr))
  | [], work => .ok (some (pre ++ work))
  | r :: rs, work =>
    if r.field < 0 ∨ (work.length : Int) ≤ r.field then .error ⟨r.field, work.length⟩
    else if filterMode && (r.rmatch (work.getD r.field.toNat []) == invert) then .ok none
    else
      grepLoop filterMode invert pre rs
        (if r.isReplace then work.set r.field.toNat (r.rreplace (work.getD r.field.toNat []))
         else work)

/-- `processRecord` from csvgrep/main.go: the record is copied after the
buffer prefix; with no rules or on a header row the copy passes through
verbatim, otherwise the rule loop runs. -/
def grepProcessRecord (rules : List GrepRule) (record buffer : List GoStr)
    (isheader : Bool) (_lineNo : Int) (filterMode invert : Bool) :
    Except FieldIndexErr (Option (List GoStr)) :=
  if rules.isEmpty || isheader then .ok (some (buffer ++ record))
  else grepLoop filterMode invert buffer rules record

/-- `createHeaderRecord` from common/range.go: `["C1", ..., "Cn"]`. -/
def createHeaderRecord (sz : Nat) : List GoStr :=
  (List.range sz).map fun i => str "C" ++ str (toString (i + 1))

/-- `strconv.Itoa` on a Go int. -/
def goItoa (i : Int) : GoStr := str (toString i)

/-- `isEmptyRecord` from common/range.go: every field (skipping index 0
when `ignoreFirst`) is the empty string or the two-byte literal `""`. -/
def isEmptyRecord (r : List GoStr) (ignoreFirst : Bool) : Bool :=
  (if ignoreFirst then r.drop 1 else r).all fun c =>
    decide (c = []) || decide (c = [34, 34])

/-- The part of the pipeline state owned by the tail-trim ring: the
`footerBuffer` slice (as a function from slot index to occupant, all slots
initially nil), the write cursor `footerBufferLocation`, and the records
written to the output so far. -/
structure RingSt where
  footer : Nat → Option GoRec
  loc : Nat
  out : List GoRec

/-- The emission/buffering block of `CSVProcessor.Process` (common/range.go)
for one candidate output record: with a positive trailing-ignore count, the
prior resident of the current slot (if any) is written, then — unless
delete-empty is on and the candidate is empty — the candidate (possibly
nil) is stored at the slot and the cursor advances modulo the count; with a
zero count, a non-nil, non-deleted candidate is written immediately. -/
def ringStep (ignoreEnd : Nat) (lineNumbers deleteEmpty : Bool) (s : RingSt)
    (outputRecord : Option GoRec) : RingSt :=
  if 0 < ignoreEnd then
    let out := match s.footer s.loc with
      | some prior => s.out ++ [prior]
      | none => s.out
    if !deleteEmpty || !isEmptyRecord (outputRecord.getD []) lineNumbers then
      { footer := fun j => if j = s.loc then outputRecord else s.footer j,
        loc := (s.loc + 1) % ignoreEnd,
        out := out }
    else { s with out := out }
  else
    if !deleteEmpty || !isEmptyRecord (outputRecord.getD []) lineNumbers then
      match outputRecord with
      | some r => { s with out := s.out ++ [r] }
      | none => s
    else s

/-- The configuration fields of `CSVProcessor` that drive the `Process`
loop (codec and I/O settings are external collaborators). -/
structure PCfg where
  ignoreEnd : Nat
  noHeader : Bool
  lineNumbers : Bool
  zeroBased : Bool

/-- Full loop state of `CSVProcessor.Process`: ring state plus the running
line counter and the one-shot first-record flag. -/
structure PState where
  ring : RingSt
  line : Int
  isFirst : Bool

/-- The buffer seeded before calling the record transform: the line-number
column when configured (`"N"` on the first physical record, else the
current line number). -/
def mkBuffer (lineNumbers isFirst : Bool) (line : Int) : List GoStr :=
  if lineNumbers then [if isFirst then str "N" else goItoa line] else []

/-- The record loop of `CSVProcessor.Process` from common/range.go (the
revision in unnamed/part_001 is identical on the ring path; it differs only
in nil-write guards on the direct-write paths and in receiving the
transform and delete-empty flag via struct fields).  Per input record: a
one-shot synthesized header is transformed and written directly when no
header is present; then the record itself is transformed (flagged as header
when it is the first record of a header-carrying stream) and handed to the
ring block; a transform error stops the loop and is returned alongside the
records already written.  Writer and I/O errors are not modelled. -/
def processRun (cfg : PCfg) (f : GoRec → List GoStr → Bool → Int → Except ε (Option GoRec))
    (deleteEmpty : Bool) : List GoRec → PState → PState × Option ε
  | [], s => (s, none)
  | record :: rest, s =>
    match
      (if s.isFirst && cfg.noHeader then
        match f (createHeaderRecord record.length)
            (if cfg.lineNumbers then [str "N"] else []) true s.line with
        | .error e => .inl (s, some e)
        | .ok outputRecord =>
          let out := match outputRecord with
            | some r => s.ring.out ++ [r]
            | none => s.ring.out
          .inr { s with ring := { s.ring with out := out }, isFirst := false }
      else .inr s : (PState × Option ε) ⊕ PState) with
    | .inl res => res
    | .inr s1 =>
      match f record (mkBuffer cfg.lineNumbers s1.isFirst s1.line)
          (!cfg.noHeader && s1.isFirst) s1.line with
      | .error e => (s1, some e)
      | .ok outputRecord =>
        processRun cfg f deleteEmpty rest
          { ring := ringStep cfg.ignoreEnd cfg.lineNumbers deleteEmpty s1.ring outputRecord,
            line := s1.line + 1,
            isFirst := false }

/-- Initial line counter: 1 (or 0 when zero-based), minus one when a header
is present. -/
def initLine (cfg : PCfg) : Int :=
  (if cfg.zeroBased then 0 else 1) - (if cfg.noHeader then 0 else 1)

/-- Initial `Process` state: empty ring slots, cursor 0, nothing written. -/
def initState (cfg : PCfg) : PState :=
  ⟨⟨fun _ => none, 0, []⟩, initLine cfg, true⟩

/-- `CSVProcessor.Process` on a fully decoded input stream. -/
def processRecords (cfg : PCfg)
    (f : GoRec → List GoStr → Bool → Int → Except ε (Option GoRec))
    (deleteEmpty : Bool) (input : List GoRec) : PState × Option ε :=
  processRun cfg f deleteEmpty input (initState cfg)

/-- The per-record transform results of a header-carrying run, in input
order: record `i` is transformed with the buffer, header flag and line
counter exactly as the `Process` loop passes them (used to state what a
run's output is the prefix of). -/
def processedList (g : GoRec → List GoStr → Bool → Int → GoRec) (lineNumbers : Bool) :
    List GoRec → Int → Bool → List GoRec
  | [], _, _ => []
  | r :: rest, line, isFirst =>
    g r (mkBuffer lineNumbers isFirst line) isFirst line
      :: processedList g lineNumbers rest (line + 1) false

/-- The slot contents of the tail-trim ring after the records of `P` have
been stored in order into an initially empty ring of capacity `K` (each at
slot `index % K`), expressed as the fold of the single-slot updates. -/
def ringFooterAux (K : Nat) : Nat → (Nat → Option GoRec) → List GoRec → (Nat → Option GoRec)
  | _, f, [] => f
  | start, f, x :: rest =>
    ringFooterAux K (start + 1) (fun j => if j = start % K then some x else f j) rest

/-- Ring contents after storing `P` from an empty ring. -/
def ringFooter (K : Nat) (P : List GoRec) : Nat → Option GoRec :=
  ringFooterAux K 0 (fun _ => none) P

/-- Outcome of `CSVProcessor.Sort`: the emitted records, the
`"entire file was ignored because of value of 'ignore end'"` error, or a Go
runtime panic. -/
inductive SortOutcome where
  | ok (out : List GoRec)
  | error
  | crash
deriving DecidableEq

/-- The emission phase of `CSVProcessor.Sort` on the truncated record set
`c` (whose body is already sorted in place): when no header was present and
`c` is non-empty, a synthesized `C1..Cn` header (prefixed with `"N"` under
line numbering) is written first; then each record of `c`, prefixed with
its 1- or 0-based index under line numbering. -/
def sortEmit (noHeader lineNumbers zeroBased : Bool) (c : List GoRec) : List GoRec :=
  (if noHeader && decide (0 < c.length) then
    [(if lineNumbers then [str "N"] else []) ++ createHeaderRecord (c.headD []).length]
  else []) ++
  (if lineNumbers then
    c.enum.map fun p => goItoa ((p.1 : Int) + (if zeroBased then 0 else 1)) :: p.2
  else c)

/-- `CSVProcessor.Sort` from common/range.go on a decoded record set: a
positive trailing-ignore count statically truncates the last records
(erroring when it exceeds the record count); the sortable set drops the
header when one is present — slicing `[1:]` of an empty truncated set is a
Go slice-bounds panic; the body is sorted with the comparison function
(sense inverted via `sort.Reverse` when reversing).  Go's `sort.Sort` is an
unspecified comparison sort; it is modelled with `List.mergeSort`, and the
claims rely only on the result being a permutation of the sortable set. -/
def sortRun (c : List GoRec) (less : GoRec → GoRec → Bool) (reverse : Bool)
    (ignoreEnd : Nat) (noHeader lineNumbers zeroBased : Bool) : SortOutcome :=
  match
    (if 0 < ignoreEnd then
      if c.length < ignoreEnd then none
      else some (c.take (c.length - ignoreEnd))
    else some c : Option (List GoRec)) with
  | none => .error
  | some c =>
    let lessFn := if reverse then (fun a b => less b a) else less
    if noHeader then
      .ok (sortEmit noHeader lineNumbers zeroBased (c.mergeSort lessFn))
    else
      match c with
      | [] => .crash
      | h :: body => .ok (sortEmit noHeader lineNumbers zeroBased (h :: body.mergeSort lessFn))

theorem strcmp_eq_zero_iff : ∀ a b : GoStr, strcmp a b = 0 ↔ a = b := by
  intro a
  induction a with
  | nil =>
    intro b
    cases b with
    | nil => simp [strcmp]
    | cons y ys => simp [strcmp]; omega
  | cons x xs ih =>
    intro b
    cases b with
    | nil => simp [strcmp]; omega
    | cons y ys =>
      by_cases h : x = y
      · subst h
        simp [strcmp, ih]
      · have hxy : (x : Int) - (y : Int) ≠ 0 := by omega
        simp [strcmp, h, hxy]

theorem strcmp_neg_symm : ∀ a b : GoStr, strcmp b a = -strcmp a b := by
  intro a
  induction a with
  | nil =>
    intro b
    cases b with
    | nil => simp [strcmp]
    | cons y ys => simp [strcmp]; omega
  | cons x xs ih =>
    intro b
    cases b with
    | nil => simp [strcmp]; omega
    | cons y ys =>
      by_cases h : x = y
      · subst h
        simp [strcmp, ih]
      · have h2 : ¬ y = x := fun hh => h hh.symm
        simp only [strcmp, if_neg h, if_neg h2]
        omega

theorem strcmp_lt_trans : ∀ a b c : GoStr, strcmp a b < 0 → strcmp b c < 0 → strcmp a c < 0 := by
  intro a
  induction a with
  | nil =>
    intro b c hab hbc
    cases c with
    | nil =>
      cases b with
      | nil => simp [strcmp] at hbc
      | cons y ys => simp [strcmp] at hbc; omega
    | cons z zs => simp [strcmp]; omega
  | cons x xs ih =>
    intro b c hab hbc
    cases b with
    | nil => simp [strcmp] at hab; omega
    | cons y ys =>
      cases c with
      | nil => simp [strcmp] at hbc; omega
      | cons z zs =>
        by_cases hxy : x = y
        · subst hxy
          simp only [strcmp, if_pos rfl] at hab
          by_cases hyz : x = z
          · subst hyz
            simp only [strcmp, if_pos rfl] at hbc ⊢
            exact ih ys zs hab hbc
          · simp only [strcmp, if_neg hyz] at hbc ⊢
            exact hbc
        · simp only [strcmp, if_neg hxy] at hab
          by_cases hyz : y = z
          · subst hyz
            simp only [strcmp, if_neg hxy]
            exact hab
          · simp only [strcmp, if_neg hyz] at hbc
            have hxz : ¬ x = z := by omega
            simp only [strcmp, if_neg hxz]
            omega

theorem strcmp_first_diff : ∀ p s t : GoStr, ∀ x y : Nat, x ≠ y →
    strcmp (p ++ x :: s) (p ++ y :: t) = (x : Int) - (y : Int) := by
  intro p
  induction p with
  | nil => intro s t x y hxy; simp [strcmp, hxy]
  | cons c cs ih => intro s t x y hxy; simpa [strcmp] using ih s t x y hxy

theorem strcmp_self_append_lt : ∀ a t : GoStr, t ≠ [] → strcmp a (a ++ t) < 0 := by
  intro a
  induction a with
  | nil =>
    intro t ht
    cases t with
    | nil => exact absurd rfl ht
    | cons z zs => simp [strcmp]; omega
  | cons x xs ih =>
    intro t ht
    simpa [strcmp] using ih t ht

/-- C8: the byte-wise string comparison used by the comparator is a strict
total order: it returns zero exactly on byte-equal strings, its result is
antisymmetric (negated) under swapping the arguments, its strict order is
transitive over every triple, it orders two strings by their first
differing byte, and a strict prefix sorts before its extension. -/
theorem c8_strcmp_strict_total_order :
    (∀ a b : GoStr, strcmp a b = 0 ↔ a = b) ∧
    (∀ a b : GoStr, strcmp b a = -strcmp a b) ∧
    (∀ a b c : GoStr, strcmp a b < 0 → strcmp b c < 0 → strcmp a c < 0) ∧
    (∀ p s t : GoStr, ∀ x y : Nat, x ≠ y →
      strcmp (p ++ x :: s) (p ++ y :: t) = (x : Int) - (y : Int)) ∧
    (∀ a t : GoStr, t ≠ [] → strcmp a (a ++ t) < 0) :=
  ⟨strcmp_eq_zero_iff, strcmp_neg_symm, strcmp_lt_trans, strcmp_first_diff,
    strcmp_self_append_lt⟩

/-- Witness for C8 at concrete strings. -/
theorem c8_strcmp_strict_total_order_witness :
    strcmp (str "abc") (str "abc") = 0 ∧
    strcmp (str "ab") (str "ad") < 0 ∧
    strcmp (str "ab") (str "abx") < 0 ∧
    strcmp (str "b") (str "a") = -strcmp (str "a") (str "b") :=
  ⟨(c8_strcmp_strict_total_order.1 (str "abc") (str "abc")).mpr rfl,
    c8_strcmp_strict_total_order.2.2.1 (str "ab") (str "ac") (str "ad")
      (by decide) (by decide),
    c8_strcmp_strict_total_order.2.2.2.2 (str "ab") [120] (by decide),
    c8_strcmp_strict_total_order.2.1 (str "a") (str "b")⟩

/-- C2: under the numeric type hint, whenever exactly one of the two field
strings fails to parse as a float, the failing side orders strictly before
the succeeding side, whichever operand it is — in both revisions of the
comparator (`cmp`, and `cmpWs` which trims whitespace before parsing). -/
theorem c2_one_sided_parse_failure :
    ∀ a b : GoStr,
      (parseFloat a = none → (∃ f, parseFloat b = some f) → cmp a b 110 = -1) ∧
      ((∃ f, parseFloat a = some f) → parseFloat b = none → cmp a b 110 = 1) ∧
      (parseFloat (trimSpace a) = none → (∃ f, parseFloat (trimSpace b) = some f) →
        cmpWs a b 110 = -1) ∧
      ((∃ f, parseFloat (trimSpace a) = some f) → parseFloat (trimSpace b) = none →
        cmpWs a b 110 = 1) := by
  intro a b
  refine ⟨?_, ?_, ?_, ?_⟩
  · rintro h1 ⟨f, hf⟩
    simp [cmp, h1, hf]
  · rintro ⟨f, hf⟩ h1
    simp [cmp, h1, hf]
  · rintro h1 ⟨f, hf⟩
    simp [cmpWs, h1, hf]
  · rintro ⟨f, hf⟩ h1
    simp [cmpWs, h1, hf]

/-- Witness for C2: `"abc"` fails to parse, `"5"` parses, and the failing
side sorts first on either side. -/
theorem c2_one_sided_parse_failure_witness :
    cmp (str "abc") (str "5") 110 = -1 ∧ cmp (str "5") (str "abc") 110 = 1 ∧
    cmpWs (str "abc") (str " 5 ") 110 = -1 :=
  ⟨(c2_one_sided_parse_failure (str "abc") (str "5")).1 (by decide)
      ⟨.finite 5 1, by decide⟩,
    (c2_one_sided_parse_failure (str "5") (str "abc")).2.1
      ⟨.finite 5 1, by decide⟩ (by decide),
    (c2_one_sided_parse_failure (str "abc") (str " 5 ")).2.2.1 (by decide)
      ⟨.finite 5 1, by decide⟩⟩

/-- C7: under the numeric type hint the comparison is numeric when both
operands parse (so `"10"`, `"9"`, `"2"` order as 2, 9, 10 — unlike the
lexicographic order — and `"2.0"` equals `"2"` despite different
formatting), and falls back to the byte-wise string comparison when both
operands fail to parse; in both comparator revisions. -/
theorem c7_numeric_comparison :
    (∀ a b : GoStr, ∀ n1 n2 : Int, ∀ d1 d2 : Nat, 0 < d1 → 0 < d2 →
      parseFloat a = some (.finite n1 d1) → parseFloat b = some (.finite n2 d2) →
      cmp a b 110 =
        if (n1 : ℚ) / (d1 : ℚ) < (n2 : ℚ) / (d2 : ℚ) then -1
        else if (n2 : ℚ) / (d2 : ℚ) < (n1 : ℚ) / (d1 : ℚ) then 1 else 0) ∧
    (cmp (str "2") (str "9") 110 = -1 ∧ cmp (str "9") (str "10") 110 = -1 ∧
      cmp (str "2") (str "10") 110 = -1 ∧ strcmp (str "10") (str "2") < 0) ∧
    cmp (str "2.0") (str "2") 110 = 0 ∧
    (∀ a b : GoStr, parseFloat a = none → parseFloat b = none →
      cmp a b 110 = strcmp a b) ∧
    cmpWs (str "2.0") (str "2") 110 = 0 ∧
    (∀ a b : GoStr, parseFloat (trimSpace a) = none → parseFloat (trimSpace b) = none →
      cmpWs a b 110 = strcmp a b) := by
  refine ⟨?_, by decide, by decide, ?_, by decide, ?_⟩
  · intro a b n1 n2 d1 d2 hd1 hd2 h1 h2
    have k1 : ((n1 : ℚ) / (d1 : ℚ) < (n2 : ℚ) / (d2 : ℚ)) ↔ n1 * (d2 : Int) < n2 * (d1 : Int) := by
      rw [div_lt_div_iff₀ (by exact_mod_cast hd1) (by exact_mod_cast hd2)]
      constructor
      · intro h; exact_mod_cast h
      · intro h; exact_mod_cast h
    have k2 : ((n2 : ℚ) / (d2 : ℚ) < (n1 : ℚ) / (d1 : ℚ)) ↔ n2 * (d1 : Int) < n1 * (d2 : Int) := by
      rw [div_lt_div_iff₀ (by exact_mod_cast hd2) (by exact_mod_cast hd1)]
      constructor
      · intro h; exact_mod_cast h
      · intro h; exact_mod_cast h
    simp [cmp, h1, h2, fLt, k1, k2]
  · intro a b h1 h2
    simp [cmp, h1, h2]
  · intro a b h1 h2
    simp [cmpWs, h1, h2]

/-- Witness for C7 at concrete inputs. -/
theorem c7_numeric_comparison_witness :
    (cmp (str "2") (str "9") 110 =
      if (2 : ℚ) / (1 : ℚ) < (9 : ℚ) / (1 : ℚ) then -1
      else if (9 : ℚ) / (1 : ℚ) < (2 : ℚ) / (1 : ℚ) then 1 else 0) ∧
    cmp (str "2") (str "9") 110 = -1 ∧
    cmp (str "abc") (str "def") 110 = strcmp (str "abc") (str "def") :=
  ⟨c7_numeric_comparison.1 (str "2") (str "9") 2 9 1 1 (by decide) (by decide)
      (by decide) (by decide),
    by decide,
    c7_numeric_comparison.2.2.2.1 (str "abc") (str "def") (by decide) (by decide)⟩

/-- C5: the claim says a token `N-Mn` parses to the range with start `N-1`,
end `M-1` and the numeric hint attached.  The source strips the suffix
letter but builds the `N-M` result without the `Flag` field, so `"1-3n"`
parses to flag 0 (string semantics), not flag `'n'` = 110 — while the
single-number path `"3n"` does attach the flag.  This evaluates the code at
the failing input. -/
theorem c5_range_token_drops_numeric_flag :
    parseFieldRange (str "1-3n") = some ⟨0, 2, 0⟩ ∧
    parseFieldRange (str "1-3n") ≠ some ⟨0, 2, 110⟩ ∧
    parseFieldRange (str "3n") = some ⟨2, -1, 110⟩ := by decide

theorem spanFields_oob : ∀ (n : Nat) (record : List GoStr) (i j : Int),
    (j + 1 - i).toNat ≤ n → 0 ≤ i → i ≤ j → (record.length : Int) ≤ j →
    spanFields record i j = none := by
  intro n
  induction n with
  | zero => intro record i j hn h0 hij hlen; omega
  | succ m ih =>
    intro record i j hn h0 hij hlen
    by_cases hend : i.toNat < record.length
    · have hx : goIndex record i = some (record.get ⟨i.toNat, hend⟩) := by
        simp [goIndex, h0, hend]
      rw [spanFields, dif_pos hij, hx,
        ih record (i + 1) j (by omega) (by omega) (by omega) hlen]
    · have hc : ¬ (0 ≤ i ∧ i.toNat < record.length) := fun hc => hend hc.2
      have hnone : goIndex record i = none := by
        simp only [goIndex, dif_neg hc]
      rw [spanFields, dif_pos hij, hnone]

/-- C10: the projection transform checks only a range's start index against
the record length; for a closed range whose start is in bounds but whose
end is at or beyond the record length, the field access runs past the end
of the record and panics instead of returning the field-index error. -/
theorem c10_projection_end_unchecked :
    ∀ (r : FieldRange) (record buffer : List GoStr) (ih : Bool) (ln : Int),
      0 ≤ r.Start → r.Start < (record.length : Int) → (record.length : Int) ≤ r.End →
      cutProcessRecord (some [r]) record buffer ih ln = .crash := by
  intro r record buffer ih ln h0 hstart hend
  have h1 : ¬ ((record.length : Int) ≤ r.Start) := by omega
  have h2 : ¬ (r.End < 0) := by omega
  rw [cutProcessRecord, cutRanges, if_neg h1, if_neg h2,
    spanFields_oob (r.End + 1 - r.Start).toNat record r.Start r.End (by omega) h0 (by omega) hend]

/-- Witness for C10: the closed range (0,5) against a 3-field record
panics. -/
theorem c10_projection_end_unchecked_witness :
    cutProcessRecord (some [⟨0, 5, 0⟩]) [str "a", str "b", str "c"] [] false 0 = .crash :=
  c10_projection_end_unchecked ⟨0, 5, 0⟩ [str "a", str "b", str "c"] [] false 0
    (by decide) (by decide) (by decide)

/-- C1 counterexample: projecting the range (5, open) against a 3-field
record produces the error whose format arguments name the 0-based start
index 5 and length 3 — not the 1-based index 6 the claim requires. -/
theorem c1_counterexample_zero_based_message :
    cutProcessRecord (some [⟨5, -1, 0⟩]) [str "a", str "b", str "c"] [] false 0 = .err 5 3 ∧
    cutProcessRecord (some [⟨5, -1, 0⟩]) [str "a", str "b", str "c"] [] false 0 ≠ .err 6 3 := by
  decide

/-- C1 (amended): when a configured range (cut) or rule (grep) references
an index beyond the record's length, the transform fails with the
field-index error whose message arguments are the offending 0-based
configured index and the actual record length. -/
theorem c1_field_index_error_indices :
    (∀ (r : FieldRange) (rs : List FieldRange) (record buffer : List GoStr)
      (ih : Bool) (ln : Int),
      (record.length : Int) ≤ r.Start →
      cutProcessRecord (some (r :: rs)) record buffer ih ln = .err r.Start record.length) ∧
    (∀ (rule : GrepRule) (rules : List GrepRule) (record buffer : List GoStr)
      (ln : Int) (fm inv : Bool),
      rule.field < 0 ∨ (record.length : Int) ≤ rule.field →
      grepProcessRecord (rule :: rules) record buffer false ln fm inv =
        .error ⟨rule.field, record.length⟩) := by
  constructor
  · intro r rs record buffer ih ln h
    rw [cutProcessRecord, cutRanges, if_pos h]
  · intro rule rules record buffer ln fm inv h
    simp [grepProcessRecord, grepLoop, h]

/-- Witness for the amended C1 at concrete out-of-range configurations. -/
theorem c1_field_index_error_indices_witness :
    cutProcessRecord (some [⟨4, -1, 0⟩]) [str "a", str "b", str "c"] [] false 0 = .err 4 3 ∧
    grepProcessRecord [⟨7, (fun _ => true), false, id⟩] [str "a", str "b", str "c"] []
      false 0 true false = .error ⟨7, 3⟩ :=
  ⟨c1_field_index_error_indices.1 ⟨4, -1, 0⟩ [] [str "a", str "b", str "c"] [] false 0
      (by decide),
    c1_field_index_error_indices.2 ⟨7, (fun _ => true), false, id⟩ []
      [str "a", str "b", str "c"] [] 0 true false (by decide)⟩

theorem mod_add_one_mod (n K : Nat) (hK : 0 < K) : (n % K + 1) % K = (n + 1) % K := by
  rcases Nat.lt_or_ge 1 K with h1 | h1
  · conv_rhs => rw [Nat.add_mod]
    rw [Nat.mod_eq_of_lt h1]
  · have hK1 : K = 1 := by omega
    subst hK1
    simp [Nat.mod_one]

theorem ringFooterAux_append (K : Nat) :
    ∀ (P : List GoRec) (x : GoRec) (start : Nat) (f : Nat → Option GoRec),
      ringFooterAux K start f (P ++ [x]) =
        fun j => if j = (start + P.length) % K then some x else ringFooterAux K start f P j := by
  intro P
  induction P with
  | nil =>
    intro x start f
    funext j
    simp [ringFooterAux]
  | cons y ys ih =>
    intro x start f
    rw [List.cons_append]
    rw [show ringFooterAux K start f (y :: (ys ++ [x])) =
      ringFooterAux K (start + 1) (fun j => if j = start % K then some y else f j) (ys ++ [x])
      from rfl]
    rw [ih]
    have harith : start + 1 + ys.length = start + (y :: ys).length := by
      simp only [List.length_cons]; omega
    rw [harith]
    rfl

theorem ringFooter_spec (K : Nat) (hK : 0 < K) :
    ∀ (P : List GoRec) (j : Nat), j < K →
      ringFooter K P j =
        if j < P.length then P[P.length - 1 - ((P.length - 1 - j) % K)]? else none := by
  intro P
  induction P using List.reverseRecOn with
  | nil =>
    intro j hj
    simp [ringFooter, ringFooterAux]
  | append_singleton Q x ih =>
    intro j hj
    have hApp : ringFooter K (Q ++ [x]) j =
        if j = (0 + Q.length) % K then some x else ringFooter K Q j :=
      congrFun (ringFooterAux_append K Q x 0 (fun _ => none)) j
    rw [Nat.zero_add] at hApp
    have hlen : (Q ++ [x]).length = Q.length + 1 := by simp
    rw [hApp, hlen]
    have hidxpre : Q.length + 1 - 1 = Q.length := by omega
    rw [hidxpre]
    by_cases hj1 : j = Q.length % K
    · rw [if_pos hj1]
      have hmle : Q.length % K ≤ Q.length := Nat.mod_le _ _
      have hd0 : (Q.length - j) % K = 0 := by
        have hdm := Nat.div_add_mod Q.length K
        have hstep : Q.length - j = K * (Q.length / K) := by omega
        rw [hstep, Nat.mul_mod_right]
      have hidx : Q.length - ((Q.length - j) % K) = Q.length := by omega
      rw [if_pos (by omega), hidx, List.getElem?_concat_length]
    · rw [if_neg hj1, ih j hj]
      by_cases hlt : j < Q.length
      · have hndvd : (Q.length - j) % K ≠ 0 := by
          intro h0
          apply hj1
          have hdm := Nat.div_add_mod (Q.length - j) K
          have hQj : Q.length - j = K * ((Q.length - j) / K) := by omega
          have hsum : Q.length % K = (K * ((Q.length - j) / K) + j) % K := by
            rw [← hQj]; congr 1; omega
          rw [Nat.mul_add_mod, Nat.mod_eq_of_lt hj] at hsum
          omega
        have hsucc : (Q.length - j) % K = (Q.length - 1 - j) % K + 1 := by
          have hd := Nat.div_add_mod (Q.length - 1 - j) K
          have hr : (Q.length - 1 - j) % K < K := Nat.mod_lt _ hK
          rcases Nat.lt_or_ge ((Q.length - 1 - j) % K + 1) K with hlt2 | hge2
          · have hrw : Q.length - j =
                K * ((Q.length - 1 - j) / K) + ((Q.length - 1 - j) % K + 1) := by
              omega
            rw [hrw, Nat.mul_add_mod, Nat.mod_eq_of_lt hlt2]
          · exfalso
            apply hndvd
            have heq : (Q.length - 1 - j) % K + 1 = K := by omega
            have hx : K * ((Q.length - 1 - j) / K + 1) =
                K * ((Q.length - 1 - j) / K) + K := Nat.mul_succ K _
            have hrw : Q.length - j = K * ((Q.length - 1 - j) / K + 1) := by
              omega
            rw [hrw, Nat.mul_mod_right]
        have hr2 : (Q.length - 1 - j) % K ≤ Q.length - 1 - j := Nat.mod_le _ _
        have hidx2 : Q.length - ((Q.length - j) % K) =
            Q.length - 1 - ((Q.length - 1 - j) % K) := by omega
        have hidxlt : Q.length - 1 - ((Q.length - 1 - j) % K) < Q.length := by omega
        rw [if_pos hlt, if_pos (show j < Q.length + 1 by omega), hidx2,
          List.getElem?_append_left hidxlt]
      · have hjgt : ¬ j < Q.length + 1 := by
          rcases Nat.lt_or_ge Q.length K with hQK | hQK
          · have : Q.length % K = Q.length := Nat.mod_eq_of_lt hQK
            omega
          · omega
        rw [if_neg hlt, if_neg hjgt]

theorem ringFooter_read (K : Nat) (hK : 0 < K) (P : List GoRec) :
    ringFooter K P (P.length % K) =
      if K ≤ P.length then P[P.length - K]? else none := by
  rw [ringFooter_spec K hK P (P.length % K) (Nat.mod_lt _ hK)]
  by_cases hKn : K ≤ P.length
  · have hq1 : 1 ≤ P.length / K := by
      rcases Nat.eq_or_lt_of_le (Nat.le_refl (P.length / K)) with _ | _
      · exact Nat.one_le_div_iff hK |>.mpr hKn
      · exact Nat.one_le_div_iff hK |>.mpr hKn
    have hdm := Nat.div_add_mod P.length K
    have hr : P.length % K < K := Nat.mod_lt _ hK
    have hd : P.length - 1 - (P.length % K) = K * (P.length / K - 1) + (K - 1) := by
      have : K * (P.length / K) = K * (P.length / K - 1) + K := by
        have h2 : 1 ≤ P.length / K := hq1
        calc K * (P.length / K) = K * ((P.length / K - 1) + 1) := by rw [Nat.sub_add_cancel h2]
          _ = K * (P.length / K - 1) + K := by ring
      omega
    have hmod : (P.length - 1 - (P.length % K)) % K = K - 1 := by
      rw [hd, Nat.mul_add_mod, Nat.mod_eq_of_lt (by omega)]
    have hlt : P.length % K < P.length := by omega
    rw [if_pos hlt, if_pos hKn, hmod]
    congr 1
    omega
  · have : P.length % K = P.length := Nat.mod_eq_of_lt (by omega)
    rw [if_neg (by omega), if_neg hKn]

theorem ringStep_push (K : Nat) (hK : 0 < K) (lineNumbers : Bool) (P : List GoRec) (x : GoRec) :
    ringStep K lineNumbers false ⟨ringFooter K P, P.length % K, P.take (P.length - K)⟩ (some x) =
      ⟨ringFooter K (P ++ [x]), (P ++ [x]).length % K, (P ++ [x]).take ((P ++ [x]).length - K)⟩ := by
  have hread := ringFooter_read K hK P
  rw [ringStep, if_pos hK]
  simp only [Bool.not_false, Bool.true_or, if_pos]
  have hfoot : (fun j => if j = P.length % K then some x else ringFooter K P j) =
      ringFooter K (P ++ [x]) := by
    have h : ringFooter K (P ++ [x]) =
        fun j => if j = (0 + P.length) % K then some x else ringFooter K P j :=
      ringFooterAux_append K P x 0 (fun _ => none)
    rw [h, Nat.zero_add]
  have hloc : (P.length % K + 1) % K = (P ++ [x]).length % K := by
    simp only [List.length_append, List.length_cons, List.length_nil]
    exact mod_add_one_mod P.length K hK
  have hout : (match ringFooter K P (P.length % K) with
      | some prior => P.take (P.length - K) ++ [prior]
      | none => P.take (P.length - K)) =
      (P ++ [x]).take ((P ++ [x]).length - K) := by
    by_cases hKn : K ≤ P.length
    · rw [if_pos hKn] at hread
      have hidx : P.length - K < P.length := by omega
      rw [hread, List.getElem?_eq_getElem hidx]
      have htake : (P ++ [x]).take ((P ++ [x]).length - K) = P.take (P.length + 1 - K) := by
        rw [List.take_append_of_le_length (by simp; omega)]
        simp
      rw [htake, show P.length + 1 - K = (P.length - K) + 1 by omega, List.take_succ,
        List.getElem?_eq_getElem hidx]
      simp
    · rw [if_neg hKn] at hread
      rw [hread]
      have h1 : P.length - K = 0 := by omega
      have h2 : (P ++ [x]).length - K = 0 := by simp; omega
      rw [h1, h2]
      simp
  rw [hfoot, hloc, hout]

theorem processedList_length (g : GoRec → List GoStr → Bool → Int → GoRec) (lineNumbers : Bool) :
    ∀ (input : List GoRec) (line : Int) (isFirst : Bool),
      (processedList g lineNumbers input line isFirst).length = input.length := by
  intro input
  induction input with
  | nil => intro line isFirst; rfl
  | cons r rest ih => intro line isFirst; simp [processedList, ih]

theorem processRun_ring_spec {ε : Type} (cfg : PCfg)
    (f : GoRec → List GoStr → Bool → Int → Except ε (Option GoRec))
    (g : GoRec → List GoStr → Bool → Int → GoRec)
    (hNH : cfg.noHeader = false) (hK : 0 < cfg.ignoreEnd)
    (hf : ∀ rec buf ih ln, f rec buf ih ln = Except.ok (some (g rec buf ih ln))) :
    ∀ (input P : List GoRec) (line : Int) (isFirst : Bool),
      processRun cfg f false input
        ⟨⟨ringFooter cfg.ignoreEnd P, P.length % cfg.ignoreEnd,
          P.take (P.length - cfg.ignoreEnd)⟩, line, isFirst⟩ =
      (⟨⟨ringFooter cfg.ignoreEnd (P ++ processedList g cfg.lineNumbers input line isFirst),
          (P.length + input.length) % cfg.ignoreEnd,
          (P ++ processedList g cfg.lineNumbers input line isFirst).take
            (P.length + input.length - cfg.ignoreEnd)⟩,
        line + input.length, if input = [] then isFirst else false⟩, none) := by
  intro input
  induction input with
  | nil =>
    intro P line isFirst
    simp [processRun, processedList]
  | cons record rest ih =>
    intro P line isFirst
    rw [processRun]
    simp only [hNH, Bool.and_false, Bool.false_eq_true, if_false, Bool.not_false,
      Bool.true_and, hf]
    rw [ringStep_push cfg.ignoreEnd hK cfg.lineNumbers P
      (g record (mkBuffer cfg.lineNumbers isFirst line) isFirst line)]
    rw [ih]
    simp only [processedList, Prod.mk.injEq, PState.mk.injEq, RingSt.mk.injEq,
      List.length_append, List.length_cons, List.length_nil]
    refine ⟨⟨⟨?_, ?_, ?_⟩, ?_, ?_⟩, trivial⟩
    · rw [List.append_assoc]
      rfl
    · congr 1
      omega
    · rw [List.append_assoc]
      have harith : P.length + 1 + rest.length - cfg.ignoreEnd =
          P.length + (rest.length + 1) - cfg.ignoreEnd := by omega
      rw [harith]
      rfl
    · push_cast
      ring
    · simp

/-- C3 (amended): for a streaming run with a header present (the claim as
stated also quantifies over no-header runs, where it fails — see the
counterexample), a transform that keeps every record, and delete-empty
disabled: with trailing-ignore count K > 0 and N input records the written
output is exactly the first N − K transformed records in input order
(`List.take (N - K)`), so for K ≥ N the output is empty — the ring
residents are never flushed at stream end — and the run ends without
error.  The first conjunct records that there are exactly N transformed
records. -/
theorem c3_tail_trim_output {ε : Type} :
    ∀ (cfg : PCfg) (f : GoRec → List GoStr → Bool → Int → Except ε (Option GoRec))
      (g : GoRec → List GoStr → Bool → Int → GoRec) (input : List GoRec),
      cfg.noHeader = false → 0 < cfg.ignoreEnd →
      (∀ rec buf ih ln, f rec buf ih ln = Except.ok (some (g rec buf ih ln))) →
      (processedList g cfg.lineNumbers input (initLine cfg) true).length = input.length ∧
      (processRecords cfg f false input).1.ring.out =
        (processedList g cfg.lineNumbers input (initLine cfg) true).take
          (input.length - cfg.ignoreEnd) ∧
      (processRecords cfg f false input).2 = none := by
  intro cfg f g input hNH hK hf
  have hinit : initState cfg =
      ⟨⟨ringFooter cfg.ignoreEnd ([] : List GoRec),
        ([] : List GoRec).length % cfg.ignoreEnd,
        (([] : List GoRec).take (([] : List GoRec).length - cfg.ignoreEnd))⟩,
        initLine cfg, true⟩ := by
    simp [initState, ringFooter, ringFooterAux]
  have hspec := processRun_ring_spec cfg f g hNH hK hf input [] (initLine cfg) true
  refine ⟨processedList_length g cfg.lineNumbers input (initLine cfg) true, ?_, ?_⟩
  · rw [processRecords, hinit, hspec]
    simp
  · rw [processRecords, hinit, hspec]

/-- Witness for C3: three records through the identity-keeping cut
transform with trailing-ignore 1 yield exactly the first two records. -/
theorem c3_tail_trim_output_witness :
    (processRecords ⟨1, false, false, false⟩
        (fun record buffer _ _ => (Except.ok (some (buffer ++ record)) : Except Unit (Option GoRec)))
        false [[str "h"], [str "a"], [str "b"]]).1.ring.out = [[str "h"], [str "a"]] ∧
    (processRecords ⟨1, false, false, false⟩
        (fun record buffer _ _ => (Except.ok (some (buffer ++ record)) : Except Unit (Option GoRec)))
        false [[str "h"], [str "a"], [str "b"]]).2 = none := by
  have h := c3_tail_trim_output ⟨1, false, false, false⟩
    (fun record buffer _ _ => (Except.ok (some (buffer ++ record)) : Except Unit (Option GoRec)))
    (fun record buffer _ _ => buffer ++ record)
    [[str "h"], [str "a"], [str "b"]] rfl (by decide) (fun _ _ _ _ => rfl)
  refine ⟨?_, h.2.2⟩
  rw [h.2.1]
  decide

/-- C3 counterexample: in a no-header run — which the claim's "every run"
covers — with one input record and trailing-ignore 1 (so K ≥ N), the
output is not empty: the one-shot synthesized header `C1` is written
directly, bypassing the tail-trim ring. -/
theorem c3_counterexample_no_header_output_not_empty :
    (processRecords ⟨1, true, false, false⟩
        (fun record buffer _ _ => (Except.ok (some (buffer ++ record)) : Except Unit (Option GoRec)))
        false [[str "a"]]).1.ring.out = [[str "C1"]] ∧
    (processRecords ⟨1, true, false, false⟩
        (fun record buffer _ _ => (Except.ok (some (buffer ++ record)) : Except Unit (Option GoRec)))
        false [[str "a"]]).2 = none := by
  exact ⟨rfl, rfl⟩

/-- C6 counterexample: a grep run (filtering enabled, delete-empty disabled
as grep always passes) with trailing-ignore 2 over a header, one kept
record and one filtered record.  Were the claim true, the filtered record
would leave the ring untouched: output empty, cursor back at 0, slot 0
still holding the processed header.  Instead the filtered (nil) result is
stored: slot 0 is overwritten with nil, the cursor advances to 1, and the
header — which the claim's accounting places in the trimmed tail — is
emitted. -/
theorem c6_counterexample_filtered_advances_ring :
    (processRecords ⟨2, false, false, false⟩
        (fun record buffer isheader lineNo =>
          grepProcessRecord [⟨1, (fun s => decide (s = str "TOP")), false, id⟩]
            record buffer isheader lineNo true false)
        false
        [[str "h1", str "h2"], [str "a", str "TOP"], [str "b", str "NO"]]).1.ring.out =
      [[str "h1", str "h2"]] ∧
    (processRecords ⟨2, false, false, false⟩
        (fun record buffer isheader lineNo =>
          grepProcessRecord [⟨1, (fun s => decide (s = str "TOP")), false, id⟩]
            record buffer isheader lineNo true false)
        false
        [[str "h1", str "h2"], [str "a", str "TOP"], [str "b", str "NO"]]).1.ring.loc = 1 ∧
    (processRecords ⟨2, false, false, false⟩
        (fun record buffer isheader lineNo =>
          grepProcessRecord [⟨1, (fun s => decide (s = str "TOP")), false, id⟩]
            record buffer isheader lineNo true false)
        false
        [[str "h1", str "h2"], [str "a", str "TOP"], [str "b", str "NO"]]).1.ring.footer 0 =
      none ∧
    (processRecords ⟨2, false, false, false⟩
        (fun record buffer isheader lineNo =>
          grepProcessRecord [⟨1, (fun s => decide (s = str "TOP")), false, id⟩]
            record buffer isheader lineNo true false)
        false
        [[str "h1", str "h2"], [str "a", str "TOP"], [str "b", str "NO"]]).1.ring.footer 1 =
      some [str "a", str "TOP"] ∧
    (processRecords ⟨2, false, false, false⟩
        (fun record buffer isheader lineNo =>
          grepProcessRecord [⟨1, (fun s => decide (s = str "TOP")), false, id⟩]
            record buffer isheader lineNo true false)
        false
        [[str "h1", str "h2"], [str "a", str "TOP"], [str "b", str "NO"]]).2 = none := by
  refine ⟨rfl, rfl, rfl, rfl, rfl⟩

/-- C6 (amended): with trailing-ignore K > 0 and delete-empty disabled (as
in the grep pipeline), a candidate for which the transform returned no
output (nil) IS stored at the cursor slot — clearing it — and advances the
write cursor modulo K, emitting the slot's prior resident; so filtered
records do consume ring slots and count toward the trimmed tail. -/
theorem c6_filtered_record_participates_in_ring :
    ∀ (K : Nat) (lineNumbers : Bool) (s : RingSt), 0 < K →
      ringStep K lineNumbers false s none =
        ⟨fun j => if j = s.loc then none else s.footer j, (s.loc + 1) % K,
          s.out ++ (match s.footer s.loc with
            | some prior => [prior]
            | none => [])⟩ := by
  intro K lineNumbers s hK
  cases hf : s.footer s.loc with
  | none => simp [ringStep, hK, hf]
  | some prior => simp [ringStep, hK, hf]

/-- Witness for the amended C6 at a concrete ring state. -/
theorem c6_filtered_record_participates_in_ring_witness :
    ringStep 2 false false ⟨fun _ => some [str "x"], 0, []⟩ none =
      ⟨fun j => if j = 0 then none else some [str "x"], 1, [[str "x"]]⟩ := by
  have h := c6_filtered_record_participates_in_ring 2 false
    ⟨fun _ => some [str "x"], 0, []⟩ (by decide)
  simpa using h

/-- C9: with delete-empty enabled, a transformed record whose fields are
all `""` or the two-byte literal `""` (ignoring the leading line-number
column when configured) is not admitted to the tail-trim ring: the slots
and the write cursor are unchanged (so it neither occupies a slot nor
counts toward the trimmed tail), the only record possibly written in its
step is the prior resident of the current slot, and with trailing-ignore 0
nothing is written at all — so the empty record itself is never emitted. -/
theorem c9_empty_record_not_admitted :
    ∀ (K : Nat) (lineNumbers : Bool) (s : RingSt) (rec : GoRec),
      isEmptyRecord rec lineNumbers = true →
      (0 < K →
        ringStep K lineNumbers true s (some rec) =
          ⟨s.footer, s.loc,
            s.out ++ (match s.footer s.loc with
              | some prior => [prior]
              | none => [])⟩) ∧
      (K = 0 → ringStep K lineNumbers true s (some rec) = s) := by
  intro K lineNumbers s rec hempty
  constructor
  · intro hK
    cases hf : s.footer s.loc with
    | none => simp [ringStep, hK, hf, hempty]
    | some prior => simp [ringStep, hK, hf, hempty]
  · intro hK0
    subst hK0
    simp [ringStep, hempty]

/-- Witness for C9: an all-empty two-field record against an occupied
one-slot ring leaves the ring unchanged and emits only the prior
resident. -/
theorem c9_empty_record_not_admitted_witness :
    ringStep 1 false true ⟨fun _ => some [str "x"], 0, []⟩ (some [[], [34, 34]]) =
      ⟨fun _ => some [str "x"], 0, [[str "x"]]⟩ := by
  have h := (c9_empty_record_not_admitted 1 false ⟨fun _ => some [str "x"], 0, []⟩
    [[], [34, 34]] (by decide)).1 (by decide)
  simpa using h

/-- C4 counterexample: with one decoded record, tail count 1 — equal to the
record count — and a header configured present, the sort engine neither
returns the ignore-end error nor succeeds: slicing `[1:]` of the empty
truncated set is a Go slice-bounds panic, refuting the claim's boundary
case. -/
theorem c4_counterexample_boundary_crash :
    sortRun [[str "h1"]] (fun _ _ => false) false 1 false false false = .crash := rfl

/-- C4 (amended): the sort engine errors exactly when the tail count
exceeds the record count; at tail count equal to the record count with a
header configured present it panics (Go slice bounds) instead of
succeeding; otherwise it succeeds, emitting — after the static truncation
of exactly the last `K` records — the (kept) header followed by a
permutation (the sorted order) of the remaining sortable records. -/
theorem c4_sort_tail_truncation :
    ∀ (c : List GoRec) (less : GoRec → GoRec → Bool) (reverse : Bool) (K : Nat)
      (noHeader lineNumbers zeroBased : Bool),
      (c.length < K → sortRun c less reverse K noHeader lineNumbers zeroBased = .error) ∧
      (c.length = K → noHeader = false →
        sortRun c less reverse K noHeader lineNumbers zeroBased = .crash) ∧
      (K ≤ c.length → noHeader = true →
        ∃ body : List GoRec,
          body.Perm (c.take (c.length - K)) ∧
          sortRun c less reverse K noHeader lineNumbers zeroBased =
            .ok (sortEmit true lineNumbers zeroBased body)) ∧
      (K < c.length → noHeader = false →
        ∃ body : List GoRec,
          body.Perm ((c.take (c.length - K)).drop 1) ∧
          sortRun c less reverse K noHeader lineNumbers zeroBased =
            .ok (sortEmit false lineNumbers zeroBased
              ((c.take (c.length - K)).take 1 ++ body))) := by
  intro c less reverse K noHeader lineNumbers zeroBased
  refine ⟨?_, ?_, ?_, ?_⟩
  · intro hlt
    have hK : 0 < K := by omega
    rw [sortRun, if_pos hK, if_pos hlt]
  · intro heq hNH
    subst hNH
    rcases Nat.eq_zero_or_pos K with hK0 | hK
    · have hc : c = [] := List.length_eq_zero.mp (by omega)
      subst hc
      rw [sortRun, if_neg (by omega)]
      rfl
    · have htr : c.take (c.length - K) = [] := by
        rw [show c.length - K = 0 by omega]
        exact List.take_zero c
      rw [sortRun, if_pos hK, if_neg (by omega), htr]
      rfl
  · intro hle hNH
    subst hNH
    rcases Nat.eq_zero_or_pos K with hK0 | hK
    · subst hK0
      refine ⟨c.mergeSort (if reverse then fun a b => less b a else less), ?_, ?_⟩
      · rw [Nat.sub_zero, List.take_length]
        exact List.mergeSort_perm c _
      · rw [sortRun, if_neg (by omega)]
        rfl
    · refine ⟨(c.take (c.length - K)).mergeSort
        (if reverse then fun a b => less b a else less),
        List.mergeSort_perm _ _, ?_⟩
      rw [sortRun, if_pos hK, if_neg (by omega)]
      rfl
  · intro hlt hNH
    subst hNH
    rcases Nat.eq_zero_or_pos K with hK0 | hK
    · subst hK0
      cases c with
      | nil => simp at hlt
      | cons h t =>
        refine ⟨t.mergeSort (if reverse then fun a b => less b a else less), ?_, ?_⟩
        · rw [Nat.sub_zero, List.take_length]
          exact List.mergeSort_perm t _
        · have h1 : (h :: t).take ((h :: t).length - 0) = h :: t := by
            rw [Nat.sub_zero, List.take_length]
          rw [sortRun, if_neg (by omega), h1]
          rfl
    · have hlen : (c.take (c.length - K)).length = c.length - K := by
        rw [List.length_take]
        omega
      have hne : c.take (c.length - K) ≠ [] := by
        intro hnil
        rw [hnil] at hlen
        simp at hlen
        omega
      obtain ⟨h, t, ht⟩ := List.exists_cons_of_ne_nil hne
      refine ⟨t.mergeSort (if reverse then fun a b => less b a else less), ?_, ?_⟩
      · rw [ht]
        exact List.mergeSort_perm t _
      · rw [sortRun, if_pos hK, if_neg (by omega), ht]
        rfl

/-- Witness for the amended C4: an empty record set with tail count 1
errors, and a 3-record set with tail count 1 and a header succeeds with the
header kept and the remaining sortable records permuted. -/
theorem c4_sort_tail_truncation_witness :
    sortRun [] (fun _ _ => false) false 1 false false false = .error ∧
    ∃ body : List GoRec,
      body.Perm (([[str "h"], [str "b"], [str "a"]].take
        ([[str "h"], [str "b"], [str "a"]].length - 1)).drop 1) ∧
      sortRun [[str "h"], [str "b"], [str "a"]] (fun _ _ => false) false 1 false false false =
        .ok (sortEmit false false false
          (([[str "h"], [str "b"], [str "a"]].take
            ([[str "h"], [str "b"], [str "a"]].length - 1)).take 1 ++ body)) :=
  ⟨(c4_sort_tail_truncation [] (fun _ _ => false) false 1 false false false).1 (by decide),
    (c4_sort_tail_truncation [[str "h"], [str "b"], [str "a"]] (fun _ _ => false) false 1
      false false false).2.2.2 (by decide) rfl⟩

end Cursive
